import Mathlib

/-!
Verification of the twitter-sentiment-analysis pipeline.

Shallow embedding of the pipeline's core operations:
  * the column normalization performed by `load_csv` in `load_sample.py`
    (a pandas dataframe is modelled column-oriented: a list of named columns);
  * the `tweets` table of `load_sample.ensure_table`, modelled as a map
    from primary-key `id` to the remaining columns;
  * the sentiment write-back of `streamlit_app.py`
    (`INSERT ... ON CONFLICT (id) DO UPDATE SET sentiment, sentiment_score`);
  * the append-only insert of `etl.load_to_db` / `load_sample.load_csv`
    under the primary-key constraint declared in `ensure_table`;
  * the VADER thresholding of `nlp.vader_sentiment` / `streamlit_app.vader_sentiment`;
  * the recent-rows query of `streamlit_app.load_data_from_db`
    (`SELECT * FROM tweets ORDER BY created_at DESC LIMIT n`).

Floats (`sentiment_score`) are modelled as rationals, timestamps as integers.
-/

namespace TwitterSA

/-! ## Dataframe model (pandas, column-oriented) -/

/-- A cell value of a dataframe: string, integer, timestamp, or null (None/NaN). -/
inductive Val where
  | vstr : String → Val
  | vint : Int → Val
  | vts : Int → Val
  | vnull : Val
deriving DecidableEq, Repr

/-- One named column of a dataframe with its per-row values. -/
structure Col where
  name : String
  values : List Val
deriving DecidableEq, Repr

/-- Dataframes are ordered lists of named columns. -/
abbrev Frame := List Col

/-- Membership test `n in df.columns` of pandas. -/
def hasCol (t : Frame) (n : String) : Bool :=
  t.any (fun c => c.name == n)

/-- Model of `df.rename`: every column named `o` is renamed to `n`,
positions and values unchanged. -/
def renameCol (t : Frame) (o n : String) : Frame :=
  t.map (fun c => if c.name == o then { c with name := n } else c)

/-- Row count `len(df)` (pandas keeps all columns the same length). -/
def numRows (t : Frame) : Nat :=
  match t with
  | [] => 0
  | c :: _ => c.values.length

/-- A column holding the same value in every row, as produced by
`df[n] = v` for a scalar `v`. -/
def constCol (n : String) (v : Val) (k : Nat) : Col :=
  ⟨n, List.replicate k v⟩

/-- Statement `if c.name not in df.columns: df[c.name] = ...` — append the column at the
end when absent, otherwise leave the frame unchanged. -/
def ensureCol (t : Frame) (c : Col) : Frame :=
  if hasCol t c.name then t else t ++ [c]

/-- Sequence of `if col not in df` statements of `load_csv`, one per default. -/
def ensureAll (t : Frame) (cs : List Col) : Frame :=
  cs.foldl ensureCol t

/-- Values `range(1, len(df) + 1)` of the synthetic `id` column. -/
def idSeq (k : Nat) : List Val :=
  (List.range k).map (fun i => Val.vint (Int.ofNat i + 1))

/-- Look a column up by name (first match, pandas column labels are unique). -/
def getCol (t : Frame) (n : String) : Option Col :=
  t.find? (fun c => c.name == n)

/-- Selection `df[cols]`: take the named columns in the given order; a missing name
raises a `KeyError`, modelled as `none`. -/
def selectCols (t : Frame) : List String → Option Frame
  | [] => some []
  | n :: ns =>
    match getCol t n, selectCols t ns with
    | some c, some cs => some (c :: cs)
    | _, _ => none

/-- The canonical column set of the `tweets` table, in canonical order
(the `cols` list of `load_csv`). -/
def canonicalCols : List String :=
  ["id", "username", "created_at", "text", "lang", "retweet_count",
   "reply_count", "like_count", "quote_count", "scraped_at",
   "sentiment", "sentiment_score"]

/-- First statement of `load_csv`'s normalization:
`if 'label' in df.columns and 'sentiment' not in df.columns: rename`. -/
def step1 (t : Frame) : Frame :=
  if hasCol t "label" && !hasCol t "sentiment"
  then renameCol t "label" "sentiment" else t

/-- Statement `if 'id' not in df.columns: df['id'] = range(1, len(df) + 1)`. -/
def step2 (t : Frame) : Frame :=
  if hasCol t "id" then t else t ++ [⟨"id", idSeq (numRows t)⟩]

/-- The list of per-column defaults `load_csv` fills in, in source order:
`created_at`/`scraped_at` default to `pd.Timestamp.now()` (the `now`
argument), the rest to `None`; `k` is the row count. -/
def defaultCols (now : Int) (k : Nat) : List Col :=
  [constCol "created_at" (Val.vts now) k,
   constCol "username" Val.vnull k,
   constCol "lang" Val.vnull k,
   constCol "retweet_count" Val.vnull k,
   constCol "reply_count" Val.vnull k,
   constCol "like_count" Val.vnull k,
   constCol "quote_count" Val.vnull k,
   constCol "scraped_at" (Val.vts now) k,
   constCol "sentiment_score" Val.vnull k]

/-- The remaining `if col not in df` fills of `load_csv`. -/
def fillDefaults (now : Int) (k : Nat) (t : Frame) : Frame :=
  ensureAll t (defaultCols now k)

/-- The column-normalization step of `load_csv` (load_sample.py):
rename `label` to `sentiment` when `sentiment` is absent, fill the missing
columns the table expects (`id` as a 1-based sequence, the two timestamps
with `pd.Timestamp.now()`, the rest with null), then keep exactly the
canonical columns via `df[cols]`. `now` is the clock value read by
`pd.Timestamp.now()`. Returns `none` when `df[cols]` raises `KeyError`
(some canonical column is still missing after the fills). -/
def normalize (now : Int) (t : Frame) : Option Frame :=
  selectCols (fillDefaults now (numRows (step1 t)) (step2 (step1 t))) canonicalCols

/-! ## Column-presence lemmas for the Normalizer -/

theorem hasCol_iff {t : Frame} {n : String} :
    hasCol t n = true ↔ ∃ c ∈ t, c.name = n := by
  simp [hasCol, List.any_eq_true]

theorem hasCol_append (t l : Frame) (n : String) :
    hasCol (t ++ l) n = (hasCol t n || hasCol l n) := by
  simp [hasCol, List.any_append]

theorem hasCol_ensureCol_mono {t : Frame} {n : String} (c : Col)
    (h : hasCol t n = true) : hasCol (ensureCol t c) n = true := by
  unfold ensureCol
  split
  · exact h
  · rw [hasCol_append, h, Bool.true_or]

theorem hasCol_ensureCol_self (t : Frame) (c : Col) :
    hasCol (ensureCol t c) c.name = true := by
  unfold ensureCol
  split
  · assumption
  · rw [hasCol_append]
    simp [hasCol]

theorem hasCol_ensureAll_mono {n : String} :
    ∀ (cs : List Col) (t : Frame), hasCol t n = true →
      hasCol (ensureAll t cs) n = true := by
  intro cs
  induction cs with
  | nil => intro t h; exact h
  | cons c cs ih =>
    intro t h
    exact ih (ensureCol t c) (hasCol_ensureCol_mono c h)

theorem hasCol_ensureAll_mem (c : Col) :
    ∀ (cs : List Col) (t : Frame), c ∈ cs →
      hasCol (ensureAll t cs) c.name = true := by
  intro cs
  induction cs with
  | nil => intro t h; cases h
  | cons c' cs ih =>
    intro t h
    rcases List.mem_cons.mp h with rfl | h
    · exact hasCol_ensureAll_mono cs (ensureCol t c) (hasCol_ensureCol_self t c)
    · exact ih (ensureCol t c') h

theorem hasCol_fill_mono {t : Frame} {n : String} (now : Int) (k : Nat)
    (h : hasCol t n = true) : hasCol (fillDefaults now k t) n = true :=
  hasCol_ensureAll_mono _ _ h

theorem hasCol_step1_of_ne {t : Frame} {n : String} (hne : n ≠ "label")
    (h : hasCol t n = true) : hasCol (step1 t) n = true := by
  unfold step1
  split
  · obtain ⟨c, hc, hcn⟩ := hasCol_iff.mp h
    have hfalse : (c.name == "label") = false := by
      rw [hcn]
      exact beq_eq_false_iff_ne.mpr hne
    refine hasCol_iff.mpr ⟨c, ?_, hcn⟩
    unfold renameCol
    have hid : (fun c : Col =>
        if c.name == "label" then { c with name := "sentiment" } else c) c = c := by
      simp [hfalse]
    rw [← hid]
    exact List.mem_map_of_mem _ hc
  · exact h

theorem hasCol_step1_sentiment {t : Frame}
    (h : hasCol t "sentiment" = true ∨ hasCol t "label" = true) :
    hasCol (step1 t) "sentiment" = true := by
  unfold step1
  by_cases hs : hasCol t "sentiment" = true
  · simp [hs]
  · have hl : hasCol t "label" = true := h.resolve_left hs
    have hs' : hasCol t "sentiment" = false := by
      cases hb : hasCol t "sentiment"
      · rfl
      · exact absurd hb hs
    have hcond : (hasCol t "label" && !hasCol t "sentiment") = true := by
      rw [hl, hs']
      rfl
    rw [if_pos hcond]
    obtain ⟨c, hc, hcn⟩ := hasCol_iff.mp hl
    refine hasCol_iff.mpr ⟨{ c with name := "sentiment" }, ?_, rfl⟩
    unfold renameCol
    have heq : (fun c : Col =>
        if c.name == "label" then { c with name := "sentiment" } else c) c
        = { c with name := "sentiment" } := by
      simp [hcn]
    rw [← heq]
    exact List.mem_map_of_mem _ hc

theorem hasCol_step2_id (t : Frame) : hasCol (step2 t) "id" = true := by
  unfold step2
  split
  · assumption
  · rw [hasCol_append]
    simp [hasCol]

theorem hasCol_step2_mono {t : Frame} {n : String}
    (h : hasCol t n = true) : hasCol (step2 t) n = true := by
  unfold step2
  split
  · exact h
  · rw [hasCol_append, h, Bool.true_or]

theorem getCol_of_hasCol {t : Frame} {n : String} (h : hasCol t n = true) :
    ∃ c, getCol t n = some c ∧ c.name = n := by
  obtain ⟨c, hc, hcn⟩ := hasCol_iff.mp h
  have hsome : (t.find? (fun c => c.name == n)).isSome := by
    rw [List.find?_isSome]
    exact ⟨c, hc, by simp [hcn]⟩
  obtain ⟨c', hc'⟩ := Option.isSome_iff_exists.mp hsome
  exact ⟨c', hc', by simpa using List.find?_some hc'⟩

theorem getCol_name {t : Frame} {n : String} {c : Col}
    (h : getCol t n = some c) : c.name = n := by
  simpa using List.find?_some h

theorem selectCols_of_all {t : Frame} :
    ∀ (ns : List String), (∀ n ∈ ns, hasCol t n = true) →
      ∃ out, selectCols t ns = some out ∧ out.map Col.name = ns := by
  intro ns
  induction ns with
  | nil => exact fun _ => ⟨[], rfl, rfl⟩
  | cons n ns ih =>
    intro h
    obtain ⟨c, hc, hcn⟩ := getCol_of_hasCol (h n (List.mem_cons_self n ns))
    obtain ⟨out, ho, hon⟩ := ih (fun m hm => h m (List.mem_cons_of_mem n hm))
    exact ⟨c :: out, by simp [selectCols, hc, ho], by simp [hon, hcn]⟩

theorem selectCols_names {t : Frame} :
    ∀ (ns : List String) (out : Frame), selectCols t ns = some out →
      out.map Col.name = ns := by
  intro ns
  induction ns with
  | nil =>
    intro out h
    simp only [selectCols] at h
    cases h
    rfl
  | cons n ns ih =>
    intro out h
    simp only [selectCols] at h
    cases hg : getCol t n with
    | none => rw [hg] at h; cases h
    | some c =>
      rw [hg] at h
      cases hs : selectCols t ns with
      | none => rw [hs] at h; cases h
      | some cs =>
        rw [hs] at h
        cases h
        simp [getCol_name hg, ih cs hs]

theorem hasCol_eq_names {t : Frame} {ns : List String}
    (h : t.map Col.name = ns) (n : String) :
    hasCol t n = ns.any (fun m => m == n) := by
  subst h
  unfold hasCol
  induction t with
  | nil => rfl
  | cons c t ih =>
    simp only [List.any_cons, List.map_cons]
    rw [ih]

theorem ensureCol_skip {t : Frame} {c : Col}
    (h : hasCol t c.name = true) : ensureCol t c = t := by
  unfold ensureCol
  rw [if_pos h]

theorem ensureAll_skip :
    ∀ (cs : List Col) (t : Frame), (∀ c ∈ cs, hasCol t c.name = true) →
      ensureAll t cs = t := by
  intro cs
  induction cs with
  | nil => intro t _; rfl
  | cons c cs ih =>
    intro t h
    show List.foldl ensureCol (ensureCol t c) cs = t
    rw [ensureCol_skip (h c (List.mem_cons_self c cs))]
    exact ih t (fun c' hc' => h c' (List.mem_cons_of_mem c hc'))

theorem step1_of_canonical {t : Frame}
    (h : t.map Col.name = canonicalCols) : step1 t = t := by
  unfold step1
  have hl : hasCol t "label" = false := by
    rw [hasCol_eq_names h]
    rfl
  rw [hl]
  rfl

theorem step2_of_canonical {t : Frame}
    (h : t.map Col.name = canonicalCols) : step2 t = t := by
  unfold step2
  have hid : hasCol t "id" = true := by
    rw [hasCol_eq_names h]
    rfl
  rw [if_pos hid]

theorem fillDefaults_of_canonical {t : Frame} (now : Int) (k : Nat)
    (h : t.map Col.name = canonicalCols) : fillDefaults now k t = t := by
  unfold fillDefaults
  apply ensureAll_skip
  intro c hc
  simp only [defaultCols, List.mem_cons, List.not_mem_nil, or_false] at hc
  rcases hc with rfl | rfl | rfl | rfl | rfl | rfl | rfl | rfl | rfl <;>
    (rw [hasCol_eq_names h]; rfl)

theorem getCol_cons_of_ne {c : Col} {t : Frame} {n : String}
    (h : c.name ≠ n) : getCol (c :: t) n = getCol t n := by
  unfold getCol
  rw [List.find?_cons_of_neg]
  simp [h]

theorem selectCols_congr {t tB : Frame} :
    ∀ (ns : List String), (∀ n ∈ ns, getCol t n = getCol tB n) →
      selectCols t ns = selectCols tB ns := by
  intro ns
  induction ns with
  | nil => intro _; rfl
  | cons n ns ih =>
    intro h
    simp only [selectCols]
    rw [h n (List.mem_cons_self n ns), ih (fun m hm => h m (List.mem_cons_of_mem n hm))]

theorem selectCols_self :
    ∀ (t : Frame) (ns : List String), t.map Col.name = ns → ns.Nodup →
      selectCols t ns = some t := by
  intro t
  induction t with
  | nil =>
    intro ns h _
    rw [← h]
    rfl
  | cons c t ih =>
    intro ns h hnd
    subst h
    simp only [List.map_cons] at hnd ⊢
    have hhead : getCol (c :: t) c.name = some c := by
      unfold getCol
      rw [List.find?_cons_of_pos]
      simp
    have hnotin : c.name ∉ t.map Col.name := (List.nodup_cons.mp hnd).1
    have htail : selectCols (c :: t) (t.map Col.name) = selectCols t (t.map Col.name) := by
      apply selectCols_congr
      intro n hn
      apply getCol_cons_of_ne
      intro hcn
      exact hnotin (hcn ▸ hn)
    simp only [selectCols]
    rw [hhead, htail, ih (t.map Col.name) rfl (List.nodup_cons.mp hnd).2]

theorem normalize_names {now : Int} {t out : Frame}
    (h : normalize now t = some out) : out.map Col.name = canonicalCols := by
  unfold normalize at h
  exact selectCols_names canonicalCols out h

theorem normalize_of_canonical {t : Frame}
    (h : t.map Col.name = canonicalCols) (now : Int) : normalize now t = some t := by
  unfold normalize
  rw [step1_of_canonical h, step2_of_canonical h, fillDefaults_of_canonical now _ h]
  exact selectCols_self t canonicalCols h (by decide)

/-! ## Claims about the Normalizer -/

/-- Claim C1, counterexample: the Normalizer does not produce the canonical
columns for every input. `load_csv` never adds a missing `text` column (nor a
missing `sentiment` when `label` is also absent), so `df[cols]` raises
`KeyError` — modelled as `none` — on a frame whose only column is `foo`:
no table with the twelve canonical columns is produced. -/
theorem normalize_missing_text_none :
    normalize 0 [⟨"foo", [Val.vstr "x"]⟩] = none := by decide

/-- Claim C1 (amended): for every input frame that has a `text` column and at
least one of `sentiment`/`label`, the Normalizer produces a frame whose
columns are exactly the twelve canonical columns, in canonical order. -/
theorem normalize_canonical_columns (now : Int) (t : Frame)
    (htext : hasCol t "text" = true)
    (hsl : hasCol t "sentiment" = true ∨ hasCol t "label" = true) :
    ∃ out, normalize now t = some out ∧ out.map Col.name = canonicalCols := by
  unfold normalize
  apply selectCols_of_all
  have h1text : hasCol (step1 t) "text" = true :=
    hasCol_step1_of_ne (by decide) htext
  have h1sent : hasCol (step1 t) "sentiment" = true := hasCol_step1_sentiment hsl
  have h2text := hasCol_step2_mono h1text
  have h2sent := hasCol_step2_mono h1sent
  have h2id := hasCol_step2_id (step1 t)
  intro n hn
  simp only [canonicalCols, List.mem_cons, List.not_mem_nil, or_false] at hn
  rcases hn with rfl | rfl | rfl | rfl | rfl | rfl | rfl | rfl | rfl | rfl | rfl | rfl
  · exact hasCol_fill_mono _ _ h2id
  · exact hasCol_ensureAll_mem
      (constCol "username" Val.vnull (numRows (step1 t))) _ _ (by simp [defaultCols])
  · exact hasCol_ensureAll_mem
      (constCol "created_at" (Val.vts now) (numRows (step1 t))) _ _ (by simp [defaultCols])
  · exact hasCol_fill_mono _ _ h2text
  · exact hasCol_ensureAll_mem
      (constCol "lang" Val.vnull (numRows (step1 t))) _ _ (by simp [defaultCols])
  · exact hasCol_ensureAll_mem
      (constCol "retweet_count" Val.vnull (numRows (step1 t))) _ _ (by simp [defaultCols])
  · exact hasCol_ensureAll_mem
      (constCol "reply_count" Val.vnull (numRows (step1 t))) _ _ (by simp [defaultCols])
  · exact hasCol_ensureAll_mem
      (constCol "like_count" Val.vnull (numRows (step1 t))) _ _ (by simp [defaultCols])
  · exact hasCol_ensureAll_mem
      (constCol "quote_count" Val.vnull (numRows (step1 t))) _ _ (by simp [defaultCols])
  · exact hasCol_ensureAll_mem
      (constCol "scraped_at" (Val.vts now) (numRows (step1 t))) _ _ (by simp [defaultCols])
  · exact hasCol_fill_mono _ _ h2sent
  · exact hasCol_ensureAll_mem
      (constCol "sentiment_score" Val.vnull (numRows (step1 t))) _ _ (by simp [defaultCols])

/-- Witness for Claim C1 (amended), at the concrete frame with columns
`text` and `label`. -/
theorem normalize_canonical_columns_witness :
    ∃ out, normalize 0 [⟨"text", [Val.vstr "hi"]⟩, ⟨"label", [Val.vstr "pos"]⟩] = some out ∧
      out.map Col.name = canonicalCols :=
  normalize_canonical_columns 0 _ (by decide) (Or.inr (by decide))

/-- Claim C6: the Normalizer is idempotent — applying the normalization to
its own output returns that output unchanged, for any clock values `now`
and `nowB` read by `pd.Timestamp.now()` at the two applications (the
composite is the Kleisli composition on `Option`, so a failing first
application also agrees). -/
theorem normalize_idempotent (now nowB : Int) (t : Frame) :
    (normalize now t).bind (normalize nowB) = normalize now t := by
  rcases h : normalize now t with _ | out
  · rfl
  · rw [Option.some_bind]
    exact normalize_of_canonical (normalize_names h) nowB

/-- Claim C2, counterexample: a row written by the Normalizer/insert path can
have `sentiment` non-null and `sentiment_score` null. Normalizing a frame
with columns `text` and `label` (the labeled sample CSV shape) yields a
single row whose `sentiment` is the label `"pos"` while `sentiment_score`
is null, and `load_csv` appends exactly these rows to the `tweets` table. -/
theorem normalize_unpaired_sentiment :
    ∃ out, normalize 0 [⟨"text", [Val.vstr "hi"]⟩, ⟨"label", [Val.vstr "pos"]⟩] = some out ∧
      getCol out "sentiment" = some ⟨"sentiment", [Val.vstr "pos"]⟩ ∧
      getCol out "sentiment_score" = some ⟨"sentiment_score", [Val.vnull]⟩ :=
  ⟨[⟨"id", [Val.vint 1]⟩, ⟨"username", [Val.vnull]⟩, ⟨"created_at", [Val.vts 0]⟩,
    ⟨"text", [Val.vstr "hi"]⟩, ⟨"lang", [Val.vnull]⟩, ⟨"retweet_count", [Val.vnull]⟩,
    ⟨"reply_count", [Val.vnull]⟩, ⟨"like_count", [Val.vnull]⟩, ⟨"quote_count", [Val.vnull]⟩,
    ⟨"scraped_at", [Val.vts 0]⟩, ⟨"sentiment", [Val.vstr "pos"]⟩,
    ⟨"sentiment_score", [Val.vnull]⟩], by decide, by decide, by decide⟩

/-! ## The `tweets` table and the sentiment write-back

The table of `ensure_table` (load_sample.py) is keyed by the `BIGINT`
primary key `id`; we model it as a map from `id` to the remaining columns.
The non-sentiment columns are grouped in `BaseCols`; `sentiment` and
`sentiment_score` are kept separate because the write-back touches only
them. All columns other than `id` are nullable; `scraped_at` carries the
table default `now()`. -/

/-- The columns of a `tweets` row other than `id`, `sentiment` and
`sentiment_score` (see `ensure_table`): all nullable. -/
structure BaseCols where
  username : Option String
  created_at : Option Int
  text : Option String
  lang : Option String
  retweet_count : Option Int
  reply_count : Option Int
  like_count : Option Int
  quote_count : Option Int
  scraped_at : Option Int
deriving DecidableEq, Repr

/-- A stored `tweets` row (without its key). -/
structure RowData where
  base : BaseCols
  sentiment : Option String
  sentiment_score : Option ℚ
deriving DecidableEq, Repr

/-- The `tweets` table: the row stored under each primary-key `id`,
or `none` when no row with that `id` exists. -/
def TableM := Nat → Option RowData

/-- One row of the write-back batch: the `id, sentiment, sentiment_score`
triple selected from the temp table by the upsert statement. -/
structure UpRow where
  id : Nat
  sentiment : Option String
  sentiment_score : Option ℚ
deriving DecidableEq, Repr

/-- Base columns of a row freshly inserted with only
`(id, sentiment, sentiment_score)` given: every other column is `NULL`
except `scraped_at`, whose table default is `now()` (the `now` argument). -/
def newBase (now : Int) : BaseCols :=
  ⟨none, none, none, none, none, none, none, none, some now⟩

/-- Effect of one row of
`INSERT INTO tweets (id, sentiment, sentiment_score) ...
 ON CONFLICT (id) DO UPDATE SET sentiment=EXCLUDED.sentiment,
 sentiment_score=EXCLUDED.sentiment_score`:
on key collision only the two sentiment columns are overwritten; otherwise
a new row is inserted with default base columns. -/
def upsertRow (now : Int) (t : TableM) (r : UpRow) : TableM :=
  fun i =>
    if i = r.id then
      match t r.id with
      | some row => some ⟨row.base, r.sentiment, r.sentiment_score⟩
      | none => some ⟨newBase now, r.sentiment, r.sentiment_score⟩
    else t i

/-- The write-back `upsert_sentiment`: the whole batch, applied in order. -/
def upsert (now : Int) (b : List UpRow) (t : TableM) : TableM :=
  b.foldl (upsertRow now) t

/-- The batch row that wins for key `i`: the last row of the batch whose
`id` is `i`, if any. -/
def lastUpd : List UpRow → Nat → Option UpRow
  | [], _ => none
  | r :: b, i =>
    match lastUpd b i with
    | some rB => some rB
    | none => if i = r.id then some r else none

/-- The base columns key `i` ends up with: kept from the existing row,
or the insert defaults when `i` is absent from the table. -/
def baseAt (now : Int) (t : TableM) (i : Nat) : BaseCols :=
  match t i with
  | some row => row.base
  | none => newBase now

theorem upsertRow_self (now : Int) (t : TableM) (r : UpRow) :
    upsertRow now t r r.id = some ⟨baseAt now t r.id, r.sentiment, r.sentiment_score⟩ := by
  unfold upsertRow baseAt
  rw [if_pos rfl]
  cases t r.id <;> rfl

theorem upsertRow_other (now : Int) (t : TableM) (r : UpRow) (i : Nat)
    (h : i ≠ r.id) : upsertRow now t r i = t i := by
  unfold upsertRow
  rw [if_neg h]

theorem baseAt_upsertRow_self (now : Int) (t : TableM) (r : UpRow) :
    baseAt now (upsertRow now t r) r.id = baseAt now t r.id := by
  unfold baseAt
  rw [upsertRow_self now t r]
  rfl

theorem baseAt_upsertRow_other (now : Int) (t : TableM) (r : UpRow) (i : Nat)
    (h : i ≠ r.id) : baseAt now (upsertRow now t r) i = baseAt now t i := by
  unfold baseAt
  rw [upsertRow_other now t r i h]

theorem upsert_apply (now : Int) :
    ∀ (b : List UpRow) (t : TableM) (i : Nat),
      upsert now b t i =
        match lastUpd b i with
        | some r => some ⟨baseAt now t i, r.sentiment, r.sentiment_score⟩
        | none => t i := by
  intro b
  induction b with
  | nil => intro t i; rfl
  | cons r b ih =>
    intro t i
    show upsert now b (upsertRow now t r) i = _
    rw [ih (upsertRow now t r) i]
    simp only [lastUpd]
    cases hb : lastUpd b i with
    | some rB =>
      by_cases hi : i = r.id
      · subst hi
        rw [baseAt_upsertRow_self now t r]
      · rw [baseAt_upsertRow_other now t r i hi]
    | none =>
      by_cases hi : i = r.id
      · subst hi
        rw [if_pos rfl]
        exact upsertRow_self now t r
      · rw [if_neg hi]
        exact upsertRow_other now t r i hi

theorem lastUpd_mem :
    ∀ (b : List UpRow) (i : Nat) (r : UpRow), lastUpd b i = some r → r ∈ b := by
  intro b
  induction b with
  | nil => intro i r h; cases h
  | cons rB b ih =>
    intro i r h
    simp only [lastUpd] at h
    cases hb : lastUpd b i with
    | some rC =>
      rw [hb] at h
      cases h
      exact List.mem_cons_of_mem rB (ih i r hb)
    | none =>
      rw [hb] at h
      by_cases hi : i = rB.id
      · rw [if_pos hi] at h
        cases h
        exact List.mem_cons_self rB b
      · rw [if_neg hi] at h
        cases h

/-- A table with no rows. -/
def emptyTable : TableM := fun _ => none

/-! ## Claims about the sentiment write-back (`upsert_sentiment`) -/

/-- Claim C3, counterexample: a batch row whose `id` matches no existing row
is not dropped. Upserting `(1, positive, 1/2)` into the empty table leaves a
row stored under id 1 — the statement is an `INSERT ... ON CONFLICT DO
UPDATE`, so unmatched ids are inserted, and indeed no error is raised. -/
theorem upsert_inserts_unmatched :
    upsert 0 [⟨1, some "positive", some (1/2 : ℚ)⟩] emptyTable 1
      = some ⟨newBase 0, some "positive", some (1/2 : ℚ)⟩ := rfl

/-- Claim C3 (amended): batch rows whose `id` matches no existing row are
inserted, not dropped: after the operation the table holds, under that `id`,
a new row carrying the batch's sentiment fields, with every other column at
its insert default (`NULL`, except `scraped_at` which defaults to `now()`).
No error is raised for such rows. -/
theorem upsert_unmatched_inserted (now : Int) (b : List UpRow) (t : TableM)
    (i : Nat) (r : UpRow)
    (hmiss : t i = none) (hlast : lastUpd b i = some r) :
    upsert now b t i = some ⟨newBase now, r.sentiment, r.sentiment_score⟩ := by
  rw [upsert_apply, hlast]
  unfold baseAt
  rw [hmiss]

/-- Witness for Claim C3 (amended) at a concrete batch and the empty table. -/
theorem upsert_unmatched_inserted_witness :
    upsert 0 [⟨2, some "negative", some (-(3 : ℚ)/4)⟩] emptyTable 2
      = some ⟨newBase 0, some "negative", some (-(3 : ℚ)/4)⟩ :=
  upsert_unmatched_inserted 0 [⟨2, some "negative", some (-(3 : ℚ)/4)⟩] emptyTable 2
    ⟨2, some "negative", some (-(3 : ℚ)/4)⟩ rfl rfl

/-- Claim C5: when a batch row's `id` collides with an existing row, the
upsert overwrites only `sentiment` and `sentiment_score`; the colliding
row's base columns (username, created_at, text, lang, the four counts,
scraped_at) are kept unchanged. -/
theorem upsert_overwrites_only_sentiment (now : Int) (b : List UpRow) (t : TableM)
    (i : Nat) (row : RowData) (r : UpRow)
    (hrow : t i = some row) (hlast : lastUpd b i = some r) :
    upsert now b t i = some ⟨row.base, r.sentiment, r.sentiment_score⟩ := by
  rw [upsert_apply, hlast]
  unfold baseAt
  rw [hrow]

/-- A fully populated row used to exercise the frame property. -/
def sampleBase : BaseCols :=
  ⟨some "alice", some 100, some "hello world", some "en",
   some 1, some 2, some 3, some 4, some 99⟩

/-- A one-row table holding `sampleBase` under id 7. -/
def sampleTable : TableM :=
  fun i => if i = 7 then some ⟨sampleBase, none, none⟩ else none

/-- Witness for Claim C5: upserting onto the populated row with id 7 keeps
every base column and replaces only the sentiment pair. -/
theorem upsert_overwrites_only_sentiment_witness :
    upsert 0 [⟨7, some "positive", some ((9 : ℚ)/10)⟩] sampleTable 7
      = some ⟨sampleBase, some "positive", some ((9 : ℚ)/10)⟩ :=
  upsert_overwrites_only_sentiment 0 [⟨7, some "positive", some ((9 : ℚ)/10)⟩]
    sampleTable 7 ⟨sampleBase, none, none⟩ ⟨7, some "positive", some ((9 : ℚ)/10)⟩
    rfl rfl

/-- Claim C7: `upsert_sentiment` applied twice with the identical batch is a
no-op on the second call — the table contents after two applications equal
the contents after one, for any clock values at the two calls. -/
theorem upsert_idempotent (nowA nowB : Int) (b : List UpRow) (t : TableM) :
    upsert nowB b (upsert nowA b t) = upsert nowA b t := by
  funext i
  rw [upsert_apply, upsert_apply]
  cases hb : lastUpd b i with
  | none => rfl
  | some r =>
    have hbase : baseAt nowB (upsert nowA b t) i = baseAt nowA t i := by
      unfold baseAt
      rw [upsert_apply nowA b t i, hb]
      rfl
    rw [hbase]

/-- Claim C2 (amended): the sentiment write-back path does preserve the
pairing invariant — when every batch row carries both a sentiment and a
score (as the VADER runner produces), every row the upsert writes has both
fields non-null. (The Normalizer/insert path violates the claim, see the
counterexample.) -/
theorem writeback_sets_sentiment_pair (now : Int) (b : List UpRow) (t : TableM)
    (hb : ∀ r ∈ b, r.sentiment.isSome ∧ r.sentiment_score.isSome) :
    ∀ i r, lastUpd b i = some r →
      ∃ row, upsert now b t i = some row ∧
        row.sentiment.isSome ∧ row.sentiment_score.isSome := by
  intro i r hlast
  obtain ⟨h1, h2⟩ := hb r (lastUpd_mem b i r hlast)
  exact ⟨⟨baseAt now t i, r.sentiment, r.sentiment_score⟩,
    by rw [upsert_apply, hlast], h1, h2⟩

/-- Witness for Claim C2 (amended) at a concrete scored batch. -/
theorem writeback_sets_sentiment_pair_witness :
    ∃ row, upsert 0 [⟨3, some "neutral", some (0 : ℚ)⟩] emptyTable 3 = some row ∧
      row.sentiment.isSome ∧ row.sentiment_score.isSome :=
  writeback_sets_sentiment_pair 0 [⟨3, some "neutral", some (0 : ℚ)⟩] emptyTable
    (by decide) 3 ⟨3, some "neutral", some (0 : ℚ)⟩ (by decide)

/-! ## Claim C10: the write-back filters null ids and can skip entirely -/

/-- One row of the scored dataframe as seen by the write-back: its `id`
column may be null (the dataframe may come from the sample CSV). -/
structure ScoredRow where
  id : Option Nat
  sentiment : Option String
  sentiment_score : Option ℚ
deriving DecidableEq, Repr

/-- Projection `df[["id", "sentiment", "sentiment_score"]].dropna(subset=["id"])`:
keep only rows with a non-null id, as upsert triples. -/
def survivors (df : List ScoredRow) : List UpRow :=
  df.filterMap (fun r => r.id.map (fun i => ⟨i, r.sentiment, r.sentiment_score⟩))

/-- The write-back path of streamlit_app.py: drop null-id rows; if nothing
survives (`updf.empty`), perform no write at all, otherwise upsert the
surviving triples. -/
def writeBack (now : Int) (df : List ScoredRow) (t : TableM) : TableM :=
  let updf := survivors df
  if updf.isEmpty then t else upsert now updf t

theorem survivors_nil_of_no_ids :
    ∀ (df : List ScoredRow), (∀ r ∈ df, r.id = none) → survivors df = [] := by
  intro df
  induction df with
  | nil => intro _; rfl
  | cons r df ih =>
    intro h
    have hr : r.id = none := h r (List.mem_cons_self r df)
    show List.filterMap _ (r :: df) = []
    rw [List.filterMap_cons]
    simp only [hr, Option.map_none']
    exact ih (fun rB hrB => h rB (List.mem_cons_of_mem r hrB))

/-- Claim C10: the write-back first removes null-id rows and writes only the
surviving triples; when no row has a non-null id the table is not written at
all and is unchanged. -/
theorem writeback_skips_when_no_ids (now : Int) (df : List ScoredRow) (t : TableM)
    (h : ∀ r ∈ df, r.id = none) : writeBack now df t = t := by
  unfold writeBack
  rw [survivors_nil_of_no_ids df h]
  rfl

/-- Witness for Claim C10 at a concrete scored frame whose only id is null. -/
theorem writeback_skips_when_no_ids_witness :
    writeBack 0 [⟨none, some "positive", some (1 : ℚ)⟩] emptyTable = emptyTable :=
  writeback_skips_when_no_ids 0 [⟨none, some "positive", some (1 : ℚ)⟩] emptyTable
    (by decide)

/-! ## Claim C9: append-only insert under the primary-key constraint -/

/-- The error taxonomy of the store: a primary-key violation is distinct
from a generic availability failure. -/
inductive StoreError where
  | duplicateKey
  | storeUnavailable
deriving DecidableEq, Repr

/-- A row of an insert batch: a key and the remaining columns. -/
structure InsRow where
  id : Nat
  data : RowData
deriving DecidableEq, Repr

/-- No value occurs twice in the list. -/
def dupFree : List Nat → Bool
  | [] => true
  | i :: l => !(l.contains i) && dupFree l

/-- The batch row stored under key `i`, if any. -/
def findRow (b : List InsRow) (i : Nat) : Option InsRow :=
  b.find? (fun r => r.id == i)

/-- Model of `load_to_db` and the `to_sql(..., if_exists='append')` insert of
`load_csv`, under the `PRIMARY KEY (id)` constraint declared by
`ensure_table`: the multi-row INSERT runs in one transaction, so any
key collision — with an existing row or inside the batch — raises the
unique-violation (duplicate key) error and the transaction leaves the
table unchanged; otherwise all rows are appended. -/
def insert_append (b : List InsRow) (t : TableM) : Except StoreError TableM :=
  if b.any (fun r => (t r.id).isSome) || !dupFree (b.map (fun r => r.id)) then
    Except.error StoreError.duplicateKey
  else
    Except.ok (fun i => match findRow b i with | some r => some r.data | none => t i)

/-- The table state after an `insert_append` call: the new table on success,
the untouched table when the transaction rolled back with an error. -/
def insertResult (b : List InsRow) (t : TableM) : TableM :=
  match insert_append b t with
  | Except.ok tB => tB
  | Except.error _ => t

/-- Claim C9: inserting a batch containing a row whose `id` already exists
raises the duplicate-key error — a constructor distinct from the generic
store error, not silently ignored — and the pre-existing row under that
`id` is left unmodified. -/
theorem insert_append_duplicate_key (b : List InsRow) (t : TableM) (r : InsRow)
    (hr : r ∈ b) (hdup : (t r.id).isSome = true) :
    insert_append b t = Except.error StoreError.duplicateKey ∧
      insertResult b t r.id = t r.id := by
  have hany : b.any (fun r => (t r.id).isSome) = true :=
    List.any_eq_true.mpr ⟨r, hr, hdup⟩
  have hc : (b.any (fun r => (t r.id).isSome)
      || !dupFree (b.map (fun r => r.id))) = true := by
    rw [hany, Bool.true_or]
  constructor
  · unfold insert_append
    rw [if_pos hc]
  · unfold insertResult insert_append
    rw [if_pos hc]

/-- Witness for Claim C9: re-inserting id 7 into the one-row table is
rejected with the duplicate-key error and the stored row survives. -/
theorem insert_append_duplicate_key_witness :
    insert_append [⟨7, ⟨sampleBase, none, none⟩⟩] sampleTable
        = Except.error StoreError.duplicateKey ∧
      insertResult [⟨7, ⟨sampleBase, none, none⟩⟩] sampleTable 7 = sampleTable 7 :=
  insert_append_duplicate_key [⟨7, ⟨sampleBase, none, none⟩⟩] sampleTable
    ⟨7, ⟨sampleBase, none, none⟩⟩ (List.mem_cons_self _ _) rfl

/-! ## Claim C4: the recent-rows query -/

/-- A `tweets` row as ordered by `load_data_from_db`: its key and its
`created_at` timestamp (the two columns the claimed ordering refers to). -/
structure QRow where
  id : Nat
  created_at : Int
deriving DecidableEq, Repr

/-- Semantics of `SELECT * FROM tweets ORDER BY created_at DESC LIMIT limit`:
`res` is a valid result when it consists of the first `limit` rows of some
reordering of the table that is sorted by `created_at` descending. The SQL
names no secondary sort key, so any ordering of rows with equal
`created_at` is permitted. -/
def query_recent (table : List QRow) (limit : Nat) (res : List QRow) : Prop :=
  ∃ s : List QRow, table.Perm s ∧
    s.Pairwise (fun a b => b.created_at ≤ a.created_at) ∧ res = s.take limit

/-- Claim C4, counterexample: the result is neither id-tie-broken nor
deterministic. For a table with two rows sharing `created_at = 5`, both
orders are valid query results (they differ, so the result is not
determined by the table state), and the first valid result lists id 1
before id 2 — violating the claimed `id` descending tie-break. -/
theorem query_recent_not_tiebroken :
    query_recent [⟨1, 5⟩, ⟨2, 5⟩] 2 [⟨1, 5⟩, ⟨2, 5⟩] ∧
    query_recent [⟨1, 5⟩, ⟨2, 5⟩] 2 [⟨2, 5⟩, ⟨1, 5⟩] ∧
    ([⟨1, 5⟩, ⟨2, 5⟩] : List QRow) ≠ [⟨2, 5⟩, ⟨1, 5⟩] ∧
    ¬ ([⟨1, 5⟩, ⟨2, 5⟩] : List QRow).Pairwise
        (fun a b => b.created_at < a.created_at ∨
          (b.created_at = a.created_at ∧ b.id < a.id)) := by
  refine ⟨⟨[⟨1, 5⟩, ⟨2, 5⟩], List.Perm.refl _, by decide, rfl⟩,
    ⟨[⟨2, 5⟩, ⟨1, 5⟩], ?_, by decide, rfl⟩, by decide, by decide⟩
  decide

/-- Claim C4 (amended): `query_recent(limit)` returns at most `limit` rows,
sorted by `created_at` descending; rows with equal `created_at` appear in
an arbitrary order (no `id` tie-break, no determinism under ties). -/
theorem query_recent_limit_sorted (table : List QRow) (limit : Nat) (res : List QRow)
    (h : query_recent table limit res) :
    res.length ≤ limit ∧
      res.Pairwise (fun a b => b.created_at ≤ a.created_at) := by
  obtain ⟨s, _, hs, rfl⟩ := h
  constructor
  · rw [List.length_take]
    exact min_le_left _ _
  · exact hs.sublist (List.take_sublist _ _)

/-- Witness for Claim C4 (amended) at a concrete one-row table. -/
theorem query_recent_limit_sorted_witness :
    ([⟨5, 10⟩] : List QRow).length ≤ 1 ∧
      ([⟨5, 10⟩] : List QRow).Pairwise (fun a b => b.created_at ≤ a.created_at) :=
  query_recent_limit_sorted [⟨5, 10⟩] 1 [⟨5, 10⟩]
    ⟨[⟨5, 10⟩], List.Perm.refl _, by decide, rfl⟩

/-! ## Claim C8: the sentiment scorer -/

/-- Modelled from the spec: the compound polarity value returned by NLTK's
`SentimentIntensityAnalyzer.polarity_scores` — the VADER library, which is
not part of src/. Per the spec it is "a compound polarity value in
[-1.0, 1.0]"; we model it as an arbitrary raw lexicon aggregate normalized
into that interval. -/
def compound (raw : ℚ) : ℚ := max (-1) (min 1 raw)

/-- The threshold branching of `vader_sentiment` (nlp.py and
streamlit_app.py): `score >= 0.05` is positive, `score <= -0.05` negative,
otherwise neutral. -/
def vaderLabel (score : ℚ) : String :=
  if score ≥ 5/100 then "positive"
  else if score ≤ -(5/100) then "negative"
  else "neutral"

/-- Result of `vader_sentiment(text)`: the label and the compound score. -/
def vader_sentiment (raw : ℚ) : String × ℚ :=
  (vaderLabel (compound raw), compound raw)

/-- Claim C8: the scorer labels `positive` exactly when the compound score
is at least 0.05, `negative` exactly when it is at most -0.05, `neutral`
exactly in between, and the returned score lies in [-1, 1]. -/
theorem vader_sentiment_spec (raw : ℚ) :
    ((vader_sentiment raw).1 = "positive" ↔ 5/100 ≤ (vader_sentiment raw).2) ∧
    ((vader_sentiment raw).1 = "negative" ↔ (vader_sentiment raw).2 ≤ -(5/100)) ∧
    ((vader_sentiment raw).1 = "neutral" ↔
      (-(5/100) < (vader_sentiment raw).2 ∧ (vader_sentiment raw).2 < 5/100)) ∧
    -1 ≤ (vader_sentiment raw).2 ∧ (vader_sentiment raw).2 ≤ 1 := by
  have hlo : (-1 : ℚ) ≤ compound raw := le_max_left _ _
  have hhi : compound raw ≤ 1 := max_le (by norm_num) (min_le_left _ _)
  show (vaderLabel (compound raw) = "positive" ↔ 5/100 ≤ compound raw) ∧
    (vaderLabel (compound raw) = "negative" ↔ compound raw ≤ -(5/100)) ∧
    (vaderLabel (compound raw) = "neutral" ↔
      (-(5/100) < compound raw ∧ compound raw < 5/100)) ∧
    -1 ≤ compound raw ∧ compound raw ≤ 1
  unfold vaderLabel
  split_ifs with h1 h2
  · exact ⟨iff_of_true rfl h1,
      iff_of_false (by decide) (fun h => by linarith),
      iff_of_false (by decide) (fun h => by linarith [h.2]),
      hlo, hhi⟩
  · exact ⟨iff_of_false (by decide) (fun h => by linarith),
      iff_of_true rfl h2,
      iff_of_false (by decide) (fun h => by linarith [h.1]),
      hlo, hhi⟩
  · exact ⟨iff_of_false (by decide) h1,
      iff_of_false (by decide) h2,
      iff_of_true rfl ⟨lt_of_not_le h2, lt_of_not_le h1⟩,
      hlo, hhi⟩

end TwitterSA
